import Mathlib

set_option maxHeartbeats 1000000

/-!
Shallow embedding of `qutebrowser/components/utils/blockutils.py`
(class `BlocklistDownloads` together with `FakeDownload`).

The Python class is a state machine driven by `initiate()` and by the
asynchronous `finished` signals of remote downloads.  We embed it as a
state record whose fields mirror the Python instance attributes, an
environment supplying the external collaborators (`os.path.isdir`,
`os.scandir`, `open`, and whether the user per-item callback raises), and
explicit event traces recording every call to the user callbacks,
`message.error` and `fileobj.close()`.  Python exceptions are modelled by
`Except`, with the raising state carried alongside the error (the Python
object survives the exception).

Ghost instrumentation (not present as Python attributes, but determined by
the run): `pending` records remote downloads whose `finished` signal has
not yet fired (the backend contract: the signal fires exactly once per
download), `dispatched` counts appends to `_in_progress`, `importCalls`
records the arguments of `_import_local` calls, and `trace` records the
observable callback events.  The all-done event snapshots `_in_progress`
and `_finished_registering_downloads` at the moment `_user_cb_all` is
invoked.
-/

/-- A directory entry as produced by `os.scandir`: its `is_file()` result
and its `path`. -/
structure DirEntry where
  is_file : Bool
  path : String
deriving DecidableEq, Repr

/-- A URL: `Url.file p` has scheme `"file"` and `toLocalFile` result `p`;
`Url.remote n` is any non-file (network) URL. -/
inductive Url where
  | file (path : String)
  | remote (id : Nat)
deriving DecidableEq, Repr

/-- External collaborators: filesystem queries, `open` (returning a file
object handle or an `OSError` strerror), and whether the user-provided
per-item callback raises on a given file object. -/
structure Env where
  isDir : String → Bool
  scandir : String → List DirEntry
  openFile : String → Except String Nat
  cbRaises : Nat → Bool

/-- Observable events, in invocation order: `_user_cb_single(fileobj)`,
`fileobj.close()`, `_user_cb_all(count)` (snapshotting `_in_progress` and
`_finished_registering_downloads` at the moment of the call), and
`message.error(msg)`. -/
inductive Event where
  | single (fileobj : Nat)
  | closeFo (fileobj : Nat)
  | all (count : Nat) (inProg : List Nat) (regDone : Bool)
  | err (msg : String)
deriving DecidableEq, Repr

/-- Python exceptions that can escape the embedded code: `ValueError`
(with its message), the `assert` statements in `_on_download_finished`,
and an exception raised by the user per-item callback. -/
inductive PyErr where
  | valueError (msg : String)
  | assertionError
  | userErr
deriving DecidableEq, Repr

/-- A `TempDownload` as seen by `_on_download_finished`: its identity
(Python object identity, used by `list.remove`), its `successful` flag and
its `fileobj` (`none` models `None`). -/
structure Download where
  id : Nat
  successful : Bool
  fileobj : Option Nat
deriving DecidableEq, Repr

/-- The coordinator state: the Python instance attributes of
`BlocklistDownloads` plus the ghost fields described in the module
docstring. -/
structure BState where
  urls : List Url
  in_progress : List Nat
  done_count : Nat
  finished_registering_downloads : Bool
  started : Bool
  finished : Bool
  trace : List Event
  pending : List Nat
  dispatched : Nat
  nextId : Nat
  importCalls : List String
deriving DecidableEq, Repr

/-- `BlocklistDownloads.__init__`: store the URLs and initialise the
bookkeeping attributes. -/
def mkCoordinator (urls : List Url) : BState :=
  { urls := urls
    in_progress := []
    done_count := 0
    finished_registering_downloads := false
    started := false
    finished := false
    trace := []
    pending := []
    dispatched := 0
    nextId := 0
    importCalls := [] }

/-- Result of running embedded Python code: either the final state, or an
uncaught exception together with the state at the moment of the raise. -/
abbrev PyResult := Except (PyErr × BState) BState

/-- The state carried by a result, whether it ended normally or with an
exception. -/
def stateOf : PyResult → BState
  | .ok s => s
  | .error (_, s) => s

/-- Lines 159-160 resp. 99-100: set `_finished = True` and call
`_user_cb_all(self._done_count)`, recording the values of `_in_progress`
and `_finished_registering_downloads` at the call. -/
def fireAll (s : BState) : BState :=
  { s with finished := true
           trace := s.trace ++
             [Event.all s.done_count s.in_progress s.finished_registering_downloads] }

/-- `BlocklistDownloads._on_download_finished` (lines 142-160): remove the
download from `_in_progress` (`list.remove` raises `ValueError` if it is
absent); on success increment `_done_count`, assert the file object is
present, call the per-item callback and close the file object in a
`finally` block (a raising callback propagates after the close); finally,
if `_in_progress` is empty and registration has finished, fire the
all-done callback. -/
def onDownloadFinished (env : Env) (s : BState) (d : Download) : PyResult :=
  if d.id ∈ s.in_progress then
    let s := { s with in_progress := s.in_progress.erase d.id }
    if d.successful then
      let s := { s with done_count := s.done_count + 1 }
      match d.fileobj with
      | none => .error (.assertionError, s)
      | some fo =>
          let s := { s with trace := s.trace ++ [Event.single fo, Event.closeFo fo] }
          if env.cbRaises fo then
            .error (.userErr, s)
          else if s.in_progress.isEmpty && s.finished_registering_downloads then
            .ok (fireAll s)
          else
            .ok s
    else
      if s.in_progress.isEmpty && s.finished_registering_downloads then
        .ok (fireAll s)
      else
        .ok s
  else
    .error (.valueError "list.remove(x): x not in list", s)

/-- `BlocklistDownloads._import_local` (lines 125-140): try to open the
file; on `OSError` report via `message.error` and return; otherwise wrap
the file object in a `FakeDownload` (a fresh object, `successful = True`),
append it to `_in_progress` and resolve it inline. -/
def importLocal (env : Env) (filename : String) (s : BState) : PyResult :=
  let s := { s with importCalls := s.importCalls ++ [filename] }
  match env.openFile filename with
  | .error e =>
      .ok { s with trace := s.trace ++
        [Event.err ("blockutils: Error while reading " ++ filename ++ ": " ++ e)] }
  | .ok fo =>
      let id := s.nextId
      let s := { s with nextId := id + 1
                        in_progress := s.in_progress ++ [id]
                        dispatched := s.dispatched + 1 }
      onDownloadFinished env s { id := id, successful := true, fileobj := some fo }

/-- The `for entry in os.scandir(filename)` loop of
`_download_blocklist_url` (lines 113-115): import every entry whose
`is_file()` is true; subdirectory entries are skipped, never descended
into. -/
def importEntries (env : Env) : List DirEntry → BState → PyResult
  | [], s => .ok s
  | e :: es, s =>
      if e.is_file then
        match importLocal env e.path s with
        | .ok s' => importEntries env es s'
        | .error err => .error err
      else
        importEntries env es s

/-- `BlocklistDownloads._download_blocklist_url` (lines 102-123): a
`file` scheme URL names a local file or directory (directories expand to
their direct file entries); any other URL is handed to
`downloads.download_temp`, appended to `_in_progress`, and its `finished`
signal connected to `_on_download_finished` (modelled by adding a fresh
download id to the ghost `pending` list). -/
def downloadBlocklistUrl (env : Env) (url : Url) (s : BState) : PyResult :=
  match url with
  | .file path =>
      if env.isDir path then
        importEntries env (env.scandir path) s
      else
        importLocal env path s
  | .remote _ =>
      let id := s.nextId
      .ok { s with nextId := id + 1
                   in_progress := s.in_progress ++ [id]
                   pending := s.pending ++ [id]
                   dispatched := s.dispatched + 1 }

/-- One asynchronous backend event: the `finished` signal of the pending
remote download `id` fires, carrying the download's final `successful`
flag and `fileobj`. -/
inductive Act where
  | resolve (id : Nat) (ok : Bool) (fo : Option Nat)
deriving DecidableEq, Repr

/-- Run a serialized sequence of backend events.  The backend contract
(each download's `finished` signal fires exactly once) is enforced by the
ghost `pending` list: an event for a download that is not pending is a
no-op. -/
def runActs (env : Env) : List Act → BState → PyResult
  | [], s => .ok s
  | .resolve i ok fo :: rest, s =>
      if i ∈ s.pending then
        match onDownloadFinished env { s with pending := s.pending.erase i }
            { id := i, successful := ok, fileobj := fo } with
        | .ok s' => runActs env rest s'
        | .error err => .error err
      else
        runActs env rest s

/-- The `for url in self._urls` loop of `initiate` (lines 91-92), with an
arbitrary serialized batch of backend events allowed between consecutive
URL dispatches (modelling remote downloads that finish before registration
is complete). -/
def loopUrls (env : Env) : List Url → List (List Act) → BState → PyResult
  | [], _, s => .ok s
  | u :: us, ils, s =>
      match downloadBlocklistUrl env u s with
      | .error err => .error err
      | .ok s' =>
          match runActs env (ils.headD []) s' with
          | .error err => .error err
          | .ok s'' => loopUrls env us ils.tail s''

/-- `BlocklistDownloads.initiate` (lines 81-100): raise `ValueError` on a
second call; with no URLs call the all-done callback synchronously with
count 0 and mark finished; otherwise dispatch every URL, set
`_finished_registering_downloads`, and if every dispatched download has
already resolved, fire the all-done callback. -/
def initiate (env : Env) (ils : List (List Act)) (s : BState) : PyResult :=
  if s.started then
    .error (.valueError "This download has already been initiated", s)
  else
    let s := { s with started := true }
    if s.urls.isEmpty then
      let s := { s with trace := s.trace ++
        [Event.all s.done_count s.in_progress s.finished_registering_downloads] }
      .ok { s with finished := true }
    else
      match loopUrls env s.urls ils s with
      | .error err => .error err
      | .ok s' =>
          let s' := { s' with finished_registering_downloads := true }
          if s'.in_progress.isEmpty then
            .ok (fireAll s')
          else
            .ok s'

/-- A complete run: construct the coordinator, call `initiate` (with
backend events interleaved between URL dispatches as `ils` describes), and
then deliver the remaining backend events of `post`. -/
def run (env : Env) (urls : List Url) (ils : List (List Act)) (post : List Act) :
    PyResult :=
  match initiate env ils (mkCoordinator urls) with
  | .error err => .error err
  | .ok s => runActs env post s

/-- Is an event an invocation of the all-done callback? -/
def isAllEvent : Event → Bool
  | .all _ _ _ => true
  | _ => false

/-- Number of all-done callback invocations recorded in a trace. -/
def allCount (t : List Event) : Nat :=
  (t.filter isAllEvent).length

/-- Does this URL denote a plain local file that the environment can
open? -/
def isOpenableFile (env : Env) : Url → Bool
  | .file p => match env.openFile p with | .ok _ => true | .error _ => false
  | .remote _ => false

/-- How many of the URLs are openable plain local files. -/
def openableCount (env : Env) (urls : List Url) : Nat :=
  (urls.filter (isOpenableFile env)).length

/-! ### Trace helper lemmas -/

theorem allCount_append (a b : List Event) :
    allCount (a ++ b) = allCount a + allCount b := by
  simp [allCount, List.filter_append]

/-- Every all-done event in the trace was fired with an empty in-flight
list, and with the registration flag set unless the URL list is empty. -/
def traceOk (urls : List Url) (t : List Event) : Prop :=
  ∀ c l r, Event.all c l r ∈ t → l = [] ∧ (r = true ∨ urls = [])

theorem traceOk_append {urls : List Url} {a b : List Event}
    (ha : traceOk urls a) (hb : traceOk urls b) : traceOk urls (a ++ b) := by
  intro c l r h
  rcases List.mem_append.1 h with h | h
  · exact ha c l r h
  · exact hb c l r h

theorem traceOk_pair (urls : List Url) (fo : Nat) :
    traceOk urls [Event.single fo, Event.closeFo fo] := by
  intro c l r h
  simp at h

theorem traceOk_err (urls : List Url) (m : String) :
    traceOk urls [Event.err m] := by
  intro c l r h
  simp at h

/-! ### Frame facts: `started` and `urls` are never changed after
`initiate` sets `started`, and the done count can only grow together with
the dispatch count. -/

/-- Facts preserved by every primitive, including on the exceptional
path: `started` and `urls` are untouched, and the bound
`done_count + |in_progress| ≤ dispatched` is maintained. -/
def presA (s t : BState) : Prop :=
  t.started = s.started ∧ t.urls = s.urls ∧
  (s.done_count + s.in_progress.length ≤ s.dispatched →
    t.done_count + t.in_progress.length ≤ t.dispatched)

theorem presA_refl (s : BState) : presA s s := ⟨rfl, rfl, id⟩

theorem presA_trans {a b c : BState} (h1 : presA a b) (h2 : presA b c) :
    presA a c :=
  ⟨h2.1.trans h1.1, h2.2.1.trans h1.2.1, fun h => h2.2.2 (h1.2.2 h)⟩

theorem presA_onDownloadFinished (env : Env) (s : BState) (d : Download) :
    presA s (stateOf (onDownloadFinished env s d)) := by
  by_cases hmem : d.id ∈ s.in_progress
  · have h2 : 0 < s.in_progress.length :=
      List.length_pos.2 (List.ne_nil_of_mem hmem)
    have h1 : (s.in_progress.erase d.id).length = s.in_progress.length - 1 :=
      List.length_erase_of_mem hmem
    generalize hr : onDownloadFinished env s d = r
    unfold onDownloadFinished at hr
    rw [if_pos hmem] at hr
    dsimp only at hr
    split at hr
    · split at hr
      · subst hr
        refine ⟨rfl, rfl, fun h => ?_⟩
        simp only [stateOf]
        omega
      · split at hr
        · subst hr
          refine ⟨rfl, rfl, fun h => ?_⟩
          simp only [stateOf]
          omega
        · split at hr <;>
            (subst hr; refine ⟨rfl, rfl, fun h => ?_⟩;
              simp only [stateOf, fireAll]; omega)
    · split at hr <;>
        (subst hr; refine ⟨rfl, rfl, fun h => ?_⟩;
          simp only [stateOf, fireAll]; omega)
  · generalize hr : onDownloadFinished env s d = r
    unfold onDownloadFinished at hr
    rw [if_neg hmem] at hr
    subst hr
    exact ⟨rfl, rfl, fun h => h⟩

theorem stateOf_ok (s : BState) : stateOf (.ok s) = s := rfl

theorem stateOf_error (e : PyErr) (s : BState) : stateOf (.error (e, s)) = s := rfl

theorem presA_importLocal (env : Env) (f : String) (s : BState) :
    presA s (stateOf (importLocal env f s)) := by
  generalize hr : importLocal env f s = r
  unfold importLocal at hr
  dsimp only at hr
  split at hr
  · subst hr
    exact ⟨rfl, rfl, fun h => by simpa [stateOf] using h⟩
  · subst hr
    refine presA_trans ?_ (presA_onDownloadFinished env _ _)
    refine ⟨rfl, rfl, fun h => ?_⟩
    simp
    omega

theorem presA_importEntries (env : Env) (es : List DirEntry) (s : BState) :
    presA s (stateOf (importEntries env es s)) := by
  induction es generalizing s with
  | nil => exact presA_refl s
  | cons e es ih =>
      have h1 := presA_importLocal env e.path s
      unfold importEntries
      by_cases hf : e.is_file = true
      · rw [if_pos hf]
        cases h : importLocal env e.path s with
        | ok s' =>
            rw [h, stateOf_ok] at h1
            exact presA_trans h1 (ih s')
        | error err =>
            rw [h] at h1
            exact h1
      · rw [if_neg hf]
        exact ih s

theorem presA_downloadBlocklistUrl (env : Env) (u : Url) (s : BState) :
    presA s (stateOf (downloadBlocklistUrl env u s)) := by
  cases u with
  | file p =>
      by_cases hd : env.isDir p = true
      · have heq : downloadBlocklistUrl env (Url.file p) s =
            importEntries env (env.scandir p) s := by
          simp [downloadBlocklistUrl, hd]
        rw [heq]
        exact presA_importEntries env _ s
      · have heq : downloadBlocklistUrl env (Url.file p) s = importLocal env p s := by
          simp [downloadBlocklistUrl, hd]
        rw [heq]
        exact presA_importLocal env p s
  | remote n =>
      refine ⟨rfl, rfl, fun h => ?_⟩
      simp [downloadBlocklistUrl, stateOf]
      omega

theorem presA_runActs (env : Env) (acts : List Act) (s : BState) :
    presA s (stateOf (runActs env acts s)) := by
  induction acts generalizing s with
  | nil => exact presA_refl s
  | cons a acts ih =>
      cases a with
      | resolve i ok fo =>
          unfold runActs
          by_cases hp : i ∈ s.pending
          · rw [if_pos hp]
            have h1 := presA_onDownloadFinished env
              { s with pending := s.pending.erase i }
              { id := i, successful := ok, fileobj := fo }
            have h0 : presA s { s with pending := s.pending.erase i } :=
              ⟨rfl, rfl, fun h => h⟩
            cases h : onDownloadFinished env { s with pending := s.pending.erase i }
                { id := i, successful := ok, fileobj := fo } with
            | ok s' =>
                rw [h, stateOf_ok] at h1
                exact presA_trans h0 (presA_trans h1 (ih s'))
            | error err =>
                rw [h] at h1
                exact presA_trans h0 h1
          · rw [if_neg hp]
            exact ih s

theorem presA_loopUrls (env : Env) (urls : List Url) (ils : List (List Act))
    (s : BState) : presA s (stateOf (loopUrls env urls ils s)) := by
  induction urls generalizing ils s with
  | nil => exact presA_refl s
  | cons u us ih =>
      have h1 := presA_downloadBlocklistUrl env u s
      unfold loopUrls
      cases h : downloadBlocklistUrl env u s with
      | error err =>
          rw [h] at h1
          exact h1
      | ok s' =>
          rw [h, stateOf_ok] at h1
          dsimp only
          have h3 := presA_runActs env (ils.headD []) s'
          cases h2 : runActs env (ils.headD []) s' with
          | error err =>
              rw [h2] at h3
              exact presA_trans h1 h3
          | ok s'' =>
              rw [h2, stateOf_ok] at h3
              dsimp only
              exact presA_trans h1 (presA_trans h3 (ih ils.tail s''))

theorem presA_initiate (env : Env) (ils : List (List Act)) (s : BState)
    (hs : s.started = false) :
    (stateOf (initiate env ils s)).started = true ∧
    (stateOf (initiate env ils s)).urls = s.urls ∧
    (s.done_count + s.in_progress.length ≤ s.dispatched →
      (stateOf (initiate env ils s)).done_count +
        (stateOf (initiate env ils s)).in_progress.length ≤
        (stateOf (initiate env ils s)).dispatched) := by
  generalize hr : initiate env ils s = r
  unfold initiate at hr
  rw [if_neg (by simp [hs])] at hr
  dsimp only at hr
  split at hr
  · subst hr
    exact ⟨rfl, rfl, fun h => by simpa [stateOf] using h⟩
  · have h1 := presA_loopUrls env s.urls ils { s with started := true }
    cases h : loopUrls env s.urls ils { s with started := true } with
    | error err =>
        rw [h] at hr
        subst hr
        rw [h] at h1
        obtain ⟨ha, hb, hc⟩ := h1
        refine ⟨by simpa using ha, by simpa using hb, fun h => by simpa using hc (by simpa using h)⟩
    | ok s' =>
        rw [h] at hr
        rw [h, stateOf_ok] at h1
        obtain ⟨ha, hb, hc⟩ := h1
        have ha' : s'.started = true := by simpa using ha
        have hb' : s'.urls = s.urls := by simpa using hb
        have hc' : s.done_count + s.in_progress.length ≤ s.dispatched →
            s'.done_count + s'.in_progress.length ≤ s'.dispatched := by
          intro h
          simpa using hc (by simpa using h)
        dsimp only at hr
        split at hr <;> subst hr <;>
          exact ⟨by dsimp only [stateOf, fireAll]; exact ha',
            by dsimp only [stateOf, fireAll]; exact hb',
            fun h => by
              have := hc' h
              dsimp only [stateOf, fireAll]
              simpa using this⟩

theorem presA_run (env : Env) (urls : List Url) (ils : List (List Act))
    (post : List Act) :
    (stateOf (run env urls ils post)).done_count +
      (stateOf (run env urls ils post)).in_progress.length ≤
      (stateOf (run env urls ils post)).dispatched ∧
    (stateOf (run env urls ils post)).started = true ∧
    (stateOf (run env urls ils post)).urls = urls := by
  have hinit := presA_initiate env ils (mkCoordinator urls) (by simp [mkCoordinator])
  have h0 : (mkCoordinator urls).done_count +
      (mkCoordinator urls).in_progress.length ≤ (mkCoordinator urls).dispatched := by
    simp [mkCoordinator]
  generalize hr : run env urls ils post = r
  unfold run at hr
  cases h : initiate env ils (mkCoordinator urls) with
  | error err =>
      rw [h] at hr
      subst hr
      rw [h] at hinit
      refine ⟨hinit.2.2 h0, hinit.1, ?_⟩
      simpa [mkCoordinator] using hinit.2.1
  | ok s' =>
      rw [h] at hr
      subst hr
      rw [h, stateOf_ok] at hinit
      have hstep := presA_runActs env post s'
      refine ⟨hstep.2.2 (hinit.2.2 h0), ?_, ?_⟩
      · rw [hstep.1, hinit.1]
      · rw [hstep.2.1, hinit.2.1]
        simp [mkCoordinator]

/-- Claim C8: in the state carried by the result of any execution — any URL
list, environment, backend schedule, normal or exceptional termination —
the successful-completion counter `_done_count` never exceeds the number
of operations appended to `_in_progress` (the `dispatched` ghost count). -/
theorem done_count_le_dispatched (env : Env) (urls : List Url)
    (ils : List (List Act)) (post : List Act) :
    (stateOf (run env urls ils post)).done_count ≤
      (stateOf (run env urls ils post)).dispatched := by
  have h := (presA_run env urls ils post).1
  omega

/-- Claim C2: calling `initiate()` a second time on a coordinator whose
`initiate()` has already run once (whatever that first call did: empty or
non-empty URL list, finished normally or by an escaped exception) raises
`ValueError("This download has already been initiated")`. -/
theorem initiate_twice_valueError (env env' : Env) (ils ils' : List (List Act))
    (urls : List Url) :
    initiate env' ils' (stateOf (initiate env ils (mkCoordinator urls))) =
      .error (.valueError "This download has already been initiated",
        stateOf (initiate env ils (mkCoordinator urls))) := by
  have h := (presA_initiate env ils (mkCoordinator urls) (by simp [mkCoordinator])).1
  generalize hs : stateOf (initiate env ils (mkCoordinator urls)) = t at h ⊢
  unfold initiate
  rw [if_pos h]

/-! ### The exactly-once invariant for the all-done callback -/

theorem allCount_pair (fo : Nat) :
    allCount [Event.single fo, Event.closeFo fo] = 0 := rfl

theorem allCount_one (c : Nat) (l : List Nat) (r : Bool) :
    allCount [Event.all c l r] = 1 := rfl

theorem allCount_err (m : String) : allCount [Event.err m] = 0 := rfl

theorem traceOk_allEvent {urls : List Url} {c : Nat} {l : List Nat} {r : Bool}
    (hl : l = []) (hr : r = true ∨ urls = []) :
    traceOk urls [Event.all c l r] := by
  intro c' l' r' h
  simp at h
  obtain ⟨h1, h2, h3⟩ := h
  subst h2
  subst h3
  exact ⟨hl, hr⟩

/-- Run invariant at scheduling boundaries: the in-flight list coincides
with the pending list; `_finished` is set exactly when every dispatched
download has resolved and registration is complete; the trace holds an
all-done event exactly when `_finished` is set; every recorded all-done
event saw an empty in-flight set (and the registration flag, except for
the empty-URL-list invocation); in-flight ids are below the fresh-id
counter. -/
def stepInv (s : BState) : Prop :=
  s.in_progress = s.pending ∧
  s.finished = (s.pending.isEmpty && s.finished_registering_downloads) ∧
  allCount s.trace = (if s.finished = true then 1 else 0) ∧
  traceOk s.urls s.trace ∧
  (∀ i ∈ s.in_progress, i < s.nextId)

theorem onDownloadFinished_step (env : Env) (s s' : BState) (d : Download)
    (hmem : d.id ∈ s.in_progress)
    (herase : s.in_progress.erase d.id = s.pending)
    (hfin : s.finished = false)
    (hall : allCount s.trace = 0)
    (htr : traceOk s.urls s.trace)
    (hok : onDownloadFinished env s d = .ok s') :
    s'.in_progress = s.pending ∧ s'.pending = s.pending ∧
    s'.finished_registering_downloads = s.finished_registering_downloads ∧
    s'.urls = s.urls ∧ s'.started = s.started ∧ s'.nextId = s.nextId ∧
    s'.finished = (s.pending.isEmpty && s.finished_registering_downloads) ∧
    allCount s'.trace = (if s'.finished = true then 1 else 0) ∧
    traceOk s'.urls s'.trace := by
  unfold onDownloadFinished at hok
  rw [if_pos hmem] at hok
  dsimp only at hok
  rw [herase] at hok
  split at hok
  · split at hok
    · simp at hok
    · rename_i fo hfo
      split at hok
      · simp at hok
      · rename_i hcb
        split at hok
        · rename_i hcond
          injection hok with hok
          subst hok
          have hparts : s.pending.isEmpty = true ∧
              s.finished_registering_downloads = true := by
            simpa using hcond
          have hpe : s.pending = [] := List.isEmpty_iff.1 hparts.1
          have hrg : s.finished_registering_downloads = true := hparts.2
          refine ⟨rfl, rfl, rfl, rfl, rfl, rfl, hcond.symm, ?_, ?_⟩
          · dsimp only [fireAll]
            rw [List.append_assoc, allCount_append, allCount_append, hall,
              allCount_pair, allCount_one]
            simp
          · dsimp only [fireAll]
            rw [List.append_assoc]
            exact traceOk_append htr
              (traceOk_append (traceOk_pair s.urls fo)
                (traceOk_allEvent hpe (Or.inl hrg)))
        · rename_i hcond
          injection hok with hok
          subst hok
          have hcond' : (s.pending.isEmpty && s.finished_registering_downloads) = false := by
            revert hcond
            cases s.pending.isEmpty && s.finished_registering_downloads <;> simp
          refine ⟨rfl, rfl, rfl, rfl, rfl, rfl, ?_, ?_, ?_⟩
          · dsimp only
            rw [hfin, hcond']
          · dsimp only
            rw [allCount_append, hall, allCount_pair, hfin]
            simp
          · exact traceOk_append htr (traceOk_pair s.urls fo)
  · split at hok
    · rename_i hcond
      injection hok with hok
      subst hok
      have hparts : s.pending.isEmpty = true ∧
          s.finished_registering_downloads = true := by
        simpa using hcond
      have hpe : s.pending = [] := List.isEmpty_iff.1 hparts.1
      have hrg : s.finished_registering_downloads = true := hparts.2
      refine ⟨rfl, rfl, rfl, rfl, rfl, rfl, hcond.symm, ?_, ?_⟩
      · dsimp only [fireAll]
        rw [allCount_append, hall, allCount_one]
        simp
      · dsimp only [fireAll]
        exact traceOk_append htr (traceOk_allEvent hpe (Or.inl hrg))
    · rename_i hcond
      injection hok with hok
      subst hok
      have hcond' : (s.pending.isEmpty && s.finished_registering_downloads) = false := by
        revert hcond
        cases s.pending.isEmpty && s.finished_registering_downloads <;> simp
      refine ⟨rfl, rfl, rfl, rfl, rfl, rfl, ?_, ?_, ?_⟩
      · dsimp only
        rw [hfin, hcond']
      · dsimp only
        rw [hall, hfin]
        simp
      · exact htr

theorem runActs_pendingNil (env : Env) (acts : List Act) (s : BState)
    (hp : s.pending = []) : runActs env acts s = .ok s := by
  induction acts with
  | nil => rfl
  | cons a acts ih =>
      cases a with
      | resolve i ok fo =>
          unfold runActs
          rw [if_neg (by rw [hp]; simp)]
          exact ih

theorem runActs_step (env : Env) (acts : List Act) (s s' : BState)
    (hinv : stepInv s) (hok : runActs env acts s = .ok s') :
    stepInv s' ∧
    s'.finished_registering_downloads = s.finished_registering_downloads ∧
    s'.urls = s.urls ∧ s'.started = s.started ∧ s'.nextId = s.nextId := by
  induction acts generalizing s with
  | nil =>
      unfold runActs at hok
      injection hok with hok
      subst hok
      exact ⟨hinv, rfl, rfl, rfl, rfl⟩
  | cons a acts ih =>
      cases a with
      | resolve i ok fo =>
          unfold runActs at hok
          by_cases hp : i ∈ s.pending
          · rw [if_pos hp] at hok
            obtain ⟨h1, h2, h3, h4, h5⟩ := hinv
            have hne : s.pending.isEmpty = false := by
              cases hpe : s.pending.isEmpty
              · rfl
              · rw [List.isEmpty_iff.1 hpe] at hp
                simp at hp
            have hfin : s.finished = false := by
              rw [h2, hne]
              simp
            have hall0 : allCount s.trace = 0 := by
              rw [h3, hfin]
              simp
            cases hodf : onDownloadFinished env { s with pending := s.pending.erase i }
                { id := i, successful := ok, fileobj := fo } with
            | error err =>
                rw [hodf] at hok
                simp at hok
            | ok s2 =>
                rw [hodf] at hok
                dsimp only at hok
                have hstep := onDownloadFinished_step env
                  { s with pending := s.pending.erase i } s2
                  { id := i, successful := ok, fileobj := fo }
                  (by dsimp only; rw [h1]; exact hp)
                  (by dsimp only; rw [h1])
                  (by dsimp only; exact hfin)
                  (by dsimp only; exact hall0)
                  (by dsimp only; exact h4)
                  hodf
                obtain ⟨g1, g2, g3, g4, g5, g6, g7, g8, g9⟩ := hstep
                dsimp only at g1 g2 g3 g4 g5 g6 g7 g8 g9
                have hinv2 : stepInv s2 := by
                  refine ⟨g1.trans g2.symm, ?_, g8, g9, ?_⟩
                  · rw [g7, g2, g3]
                  · intro j hj
                    rw [g6]
                    exact h5 j (by rw [h1]; exact List.mem_of_mem_erase (g1 ▸ hj))
                obtain ⟨f1, f2, f3, f4, f5⟩ := ih s2 hinv2 hok
                exact ⟨f1, f2.trans g3, f3.trans g4, f4.trans g5, f5.trans g6⟩
          · rw [if_neg hp] at hok
            exact ih s hinv hok

theorem importLocal_step (env : Env) (f : String) (s s' : BState)
    (hinv : stepInv s)
    (hflag : s.finished_registering_downloads = false)
    (hok : importLocal env f s = .ok s') :
    stepInv s' ∧ s'.finished_registering_downloads = false ∧
    s'.urls = s.urls ∧ s'.started = s.started := by
  obtain ⟨h1, h2, h3, h4, h5⟩ := hinv
  have hfin : s.finished = false := by
    rw [h2, hflag]
    simp
  have hall0 : allCount s.trace = 0 := by
    rw [h3, hfin]
    simp
  unfold importLocal at hok
  dsimp only at hok
  split at hok
  · injection hok with hok
    subst hok
    refine ⟨⟨h1, h2, ?_, ?_, h5⟩, hflag, rfl, rfl⟩
    · dsimp only
      rw [allCount_append, hall0, allCount_err, hfin]
      simp
    · exact traceOk_append h4 (traceOk_err s.urls _)
  · rename_i fo hfo
    have hnotmem : s.nextId ∉ s.in_progress := fun hmem => by
      have := h5 s.nextId hmem
      omega
    have hstep := onDownloadFinished_step env
      { s with importCalls := s.importCalls ++ [f], nextId := s.nextId + 1,
               in_progress := s.in_progress ++ [s.nextId],
               dispatched := s.dispatched + 1 } s'
      { id := s.nextId, successful := true, fileobj := some fo }
      (by dsimp only; simp)
      (by dsimp only
          rw [List.erase_append_right _ hnotmem]
          simp [h1])
      (by dsimp only; exact hfin)
      (by dsimp only; exact hall0)
      (by dsimp only; exact h4)
      hok
    obtain ⟨g1, g2, g3, g4, g5, g6, g7, g8, g9⟩ := hstep
    dsimp only at g1 g2 g3 g4 g5 g6 g7 g8 g9
    have hflag' : s'.finished_registering_downloads = false := g3.trans hflag
    refine ⟨⟨g1.trans g2.symm, ?_, g8, g9, ?_⟩, hflag', g4, g5⟩
    · rw [g7, g2, hflag, hflag']
    · intro j hj
      rw [g6]
      have : j ∈ s.in_progress := by
        rw [h1]
        exact g1 ▸ hj
      have := h5 j this
      omega

theorem importEntries_step (env : Env) (es : List DirEntry) (s s' : BState)
    (hinv : stepInv s)
    (hflag : s.finished_registering_downloads = false)
    (hok : importEntries env es s = .ok s') :
    stepInv s' ∧ s'.finished_registering_downloads = false ∧
    s'.urls = s.urls ∧ s'.started = s.started := by
  induction es generalizing s with
  | nil =>
      unfold importEntries at hok
      injection hok with hok
      subst hok
      exact ⟨hinv, hflag, rfl, rfl⟩
  | cons e es ih =>
      unfold importEntries at hok
      by_cases hf : e.is_file = true
      · rw [if_pos hf] at hok
        cases hil : importLocal env e.path s with
        | error err =>
            rw [hil] at hok
            simp at hok
        | ok s2 =>
            rw [hil] at hok
            dsimp only at hok
            obtain ⟨g1, g2, g3, g4⟩ := importLocal_step env e.path s s2 hinv hflag hil
            obtain ⟨f1, f2, f3, f4⟩ := ih s2 g1 g2 hok
            exact ⟨f1, f2, f3.trans g3, f4.trans g4⟩
      · rw [if_neg hf] at hok
        exact ih s hinv hflag hok

theorem downloadBlocklistUrl_step (env : Env) (u : Url) (s s' : BState)
    (hinv : stepInv s)
    (hflag : s.finished_registering_downloads = false)
    (hok : downloadBlocklistUrl env u s = .ok s') :
    stepInv s' ∧ s'.finished_registering_downloads = false ∧
    s'.urls = s.urls ∧ s'.started = s.started := by
  cases u with
  | file p =>
      by_cases hd : env.isDir p = true
      · have heq : downloadBlocklistUrl env (Url.file p) s =
            importEntries env (env.scandir p) s := by
          simp [downloadBlocklistUrl, hd]
        rw [heq] at hok
        exact importEntries_step env _ s s' hinv hflag hok
      · have heq : downloadBlocklistUrl env (Url.file p) s = importLocal env p s := by
          simp [downloadBlocklistUrl, hd]
        rw [heq] at hok
        exact importLocal_step env p s s' hinv hflag hok
  | remote n =>
      obtain ⟨h1, h2, h3, h4, h5⟩ := hinv
      unfold downloadBlocklistUrl at hok
      dsimp only at hok
      injection hok with hok
      subst hok
      refine ⟨⟨?_, ?_, ?_, ?_, ?_⟩, hflag, rfl, rfl⟩
      · dsimp only
        rw [h1]
      · dsimp only
        rw [h2, hflag]
        simp
      · dsimp only
        rw [h3]
      · exact h4
      · intro j hj
        dsimp only at hj ⊢
        rcases List.mem_append.1 hj with hj | hj
        · have := h5 j hj
          omega
        · simp at hj
          omega

theorem loopUrls_step (env : Env) (us : List Url) (ils : List (List Act))
    (s s' : BState)
    (hinv : stepInv s)
    (hflag : s.finished_registering_downloads = false)
    (hok : loopUrls env us ils s = .ok s') :
    stepInv s' ∧ s'.finished_registering_downloads = false ∧
    s'.urls = s.urls ∧ s'.started = s.started := by
  induction us generalizing ils s with
  | nil =>
      unfold loopUrls at hok
      injection hok with hok
      subst hok
      exact ⟨hinv, hflag, rfl, rfl⟩
  | cons u us ih =>
      unfold loopUrls at hok
      cases hd : downloadBlocklistUrl env u s with
      | error err =>
          rw [hd] at hok
          simp at hok
      | ok s2 =>
          rw [hd] at hok
          dsimp only at hok
          obtain ⟨g1, g2, g3, g4⟩ := downloadBlocklistUrl_step env u s s2 hinv hflag hd
          cases hr : runActs env (ils.headD []) s2 with
          | error err =>
              rw [hr] at hok
              simp at hok
          | ok s3 =>
              rw [hr] at hok
              dsimp only at hok
              obtain ⟨f1, f2, f3, f4, f5⟩ := runActs_step env (ils.headD []) s2 s3 g1 hr
              obtain ⟨e1, e2, e3, e4⟩ := ih ils.tail s3 f1 (f2.trans g2) hok
              exact ⟨e1, e2, (e3.trans f3).trans g3, (e4.trans f4).trans g4⟩

theorem initiate_cases (env : Env) (ils : List (List Act)) (urls : List Url)
    (s0 : BState) (hok : initiate env ils (mkCoordinator urls) = .ok s0) :
    (urls = [] ∧ s0.pending = [] ∧ s0.trace = [Event.all 0 [] false]) ∨
    (stepInv s0 ∧ s0.finished_registering_downloads = true ∧ s0.urls = urls) := by
  unfold initiate at hok
  rw [if_neg (by simp [mkCoordinator])] at hok
  dsimp only at hok
  split at hok
  · rename_i hurls
    injection hok with hok
    subst hok
    left
    refine ⟨?_, by simp [mkCoordinator], by simp [mkCoordinator]⟩
    simpa [mkCoordinator, List.isEmpty_iff] using hurls
  · right
    split at hok
    · simp at hok
    · rename_i s2 hloop
      have hinv1 : stepInv { mkCoordinator urls with started := true } :=
        ⟨by simp [mkCoordinator], by simp [mkCoordinator],
         by simp [mkCoordinator, allCount],
         fun c l r h => by simp [mkCoordinator] at h,
         fun i hi => by simp [mkCoordinator] at hi⟩
      have hflag1 : ({ mkCoordinator urls with started := true } : BState).finished_registering_downloads = false := by
        simp [mkCoordinator]
      obtain ⟨g1, g2, g3, g4⟩ := loopUrls_step env _ ils _ s2 hinv1 hflag1 hloop
      have hurls2 : s2.urls = urls := by
        rw [g3]
        simp [mkCoordinator]
      obtain ⟨i1, i2, i3, i4, i5⟩ := g1
      have hfin2 : s2.finished = false := by
        rw [i2, g2]
        simp
      have hall2 : allCount s2.trace = 0 := by
        rw [i3, hfin2]
        simp
      split at hok
      · rename_i hcond
        injection hok with hok
        subst hok
        have hpe : s2.in_progress = [] := List.isEmpty_iff.1 hcond
        refine ⟨⟨i1, ?_, ?_, ?_, ?_⟩, rfl, hurls2⟩
        · dsimp only [fireAll]
          rw [← i1, hpe]
          rfl
        · dsimp only [fireAll]
          rw [allCount_append, hall2, allCount_one]
          rfl
        · dsimp only [fireAll]
          exact traceOk_append i4 (traceOk_allEvent hpe (Or.inl rfl))
        · intro j hj
          dsimp only [fireAll] at hj ⊢
          exact i5 j hj
      · rename_i hcond
        injection hok with hok
        subst hok
        have hcond' : s2.in_progress.isEmpty = false := by
          revert hcond
          cases s2.in_progress.isEmpty <;> simp
        refine ⟨⟨i1, ?_, ?_, i4, i5⟩, rfl, hurls2⟩
        · dsimp only
          rw [hfin2, ← i1, hcond']
          rfl
        · dsimp only
          rw [hall2, hfin2]
          simp

/-- Claim C1 (amended): over every environment, source list and serialized
backend schedule, if the run terminates normally and every dispatched
remote download has resolved, then the all-done callback was invoked
exactly once, and at the moment of each invocation the in-flight set was
empty and the registration-phase-complete flag was true — except when the
source list is empty, in which case the single synchronous invocation
happens with the flag still false. -/
theorem allDone_fires_once_amended (env : Env) (urls : List Url)
    (ils : List (List Act)) (post : List Act) (s : BState)
    (hok : run env urls ils post = .ok s) (hdone : s.pending = []) :
    allCount s.trace = 1 ∧
    ∀ c l r, Event.all c l r ∈ s.trace → l = [] ∧ (r = true ∨ urls = []) := by
  unfold run at hok
  split at hok
  · simp at hok
  · rename_i s0 hinit
    rcases initiate_cases env ils urls s0 hinit with ⟨hu, hp, ht⟩ | ⟨hinv, hflag, hurls⟩
    · rw [runActs_pendingNil env post s0 hp] at hok
      injection hok with hok
      subst hok
      constructor
      · rw [ht]
        rfl
      · intro c l r h
        rw [ht] at h
        simp at h
        exact ⟨h.2.1, Or.inr hu⟩
    · obtain ⟨f1, f2, f3, f4, f5⟩ := runActs_step env post s0 s hinv hok
      obtain ⟨i1, i2, i3, i4, i5⟩ := f1
      have hfl : s.finished_registering_downloads = true := f2.trans hflag
      have hfin : s.finished = true := by
        rw [i2, hdone, hfl]
        rfl
      constructor
      · rw [i3, hfin]
        rfl
      · intro c l r h
        have hh := i4 c l r h
        rw [f3, hurls] at hh
        exact hh

/-- Claim C3: a coordinator constructed with an empty source list, on
`initiate()`, synchronously invokes the all-done callback with count 0 —
the only event of the run, recorded with the in-flight set empty and the
registration flag still false — marks the coordinator finished, and
dispatches no operation (no append to the in-flight list, no
`_import_local` call). -/
theorem initiate_empty_sources (env : Env) (ils : List (List Act)) :
    ∃ s, initiate env ils (mkCoordinator []) = .ok s ∧
      s.trace = [Event.all 0 [] false] ∧ s.finished = true ∧
      s.dispatched = 0 ∧ s.importCalls = [] ∧ s.in_progress = [] :=
  ⟨_, rfl, rfl, rfl, rfl, rfl, rfl⟩

theorem importLocal_openFail (env : Env) (f e : String) (s : BState)
    (hopen : env.openFile f = .error e) :
    importLocal env f s =
      .ok { s with
            importCalls := s.importCalls ++ [f],
            trace := s.trace ++
              [Event.err ("blockutils: Error while reading " ++ f ++ ": " ++ e)] } := by
  unfold importLocal
  dsimp only
  rw [hopen]

/-- Claim C5: when opening a local file fails with an OS error, the
coordinator reports a single error message — containing both the filename
and the OS error string — through the error reporter, and skips the
source entirely: the in-flight list, pending list, success counter and
dispatch count are unchanged, and no per-item callback event is produced
(the trace grows by the one error event only). -/
theorem local_open_failure_skips (env : Env) (f e : String) (s : BState)
    (hopen : env.openFile f = .error e) :
    ∃ s', importLocal env f s = .ok s' ∧
      s'.trace = s.trace ++
        [Event.err ("blockutils: Error while reading " ++ f ++ ": " ++ e)] ∧
      s'.in_progress = s.in_progress ∧ s'.done_count = s.done_count ∧
      s'.pending = s.pending ∧ s'.dispatched = s.dispatched ∧
      List.IsInfix f.data
        ("blockutils: Error while reading " ++ f ++ ": " ++ e).data ∧
      List.IsInfix e.data
        ("blockutils: Error while reading " ++ f ++ ": " ++ e).data := by
  refine ⟨_, importLocal_openFail env f e s hopen, rfl, rfl, rfl, rfl, rfl, ?_, ?_⟩
  · refine ⟨"blockutils: Error while reading ".data, (": " ++ e).data, ?_⟩
    simp [String.data_append]
  · refine ⟨("blockutils: Error while reading " ++ f ++ ": ").data, [], ?_⟩
    simp [String.data_append]

/-- Claim C6: resolving a successful operation invokes the per-item
callback on the stream handle and closes the handle immediately after the
callback on every exit path: if the callback returns normally the close
happens before anything else, and if the callback raises, the handle is
still closed and the exception propagates out of the resolution as an
uncaught error rather than being swallowed. -/
theorem stream_closed_all_paths (env : Env) (s : BState) (d : Download) (fo : Nat)
    (hmem : d.id ∈ s.in_progress) (hsucc : d.successful = true)
    (hfo : d.fileobj = some fo) :
    ∃ t, (stateOf (onDownloadFinished env s d)).trace =
        s.trace ++ [Event.single fo, Event.closeFo fo] ++ t ∧
      (env.cbRaises fo = true →
        onDownloadFinished env s d =
          .error (PyErr.userErr, stateOf (onDownloadFinished env s d)) ∧ t = []) ∧
      (env.cbRaises fo = false →
        onDownloadFinished env s d = .ok (stateOf (onDownloadFinished env s d))) := by
  unfold onDownloadFinished
  rw [if_pos hmem]
  dsimp only
  rw [if_pos hsucc]
  rw [hfo]
  dsimp only
  by_cases hcb : env.cbRaises fo = true
  · rw [if_pos hcb]
    refine ⟨[], ?_, ?_, ?_⟩
    · dsimp only [stateOf]
      simp
    · intro hf
      exact ⟨rfl, rfl⟩
    · intro hf
      rw [hcb] at hf
      cases hf
  · have hcb2 : env.cbRaises fo = false := by
      revert hcb
      cases env.cbRaises fo <;> simp
    rw [if_neg hcb]
    split
    · refine ⟨[Event.all (s.done_count + 1) (s.in_progress.erase d.id)
          s.finished_registering_downloads], ?_, ?_, ?_⟩
      · dsimp only [stateOf, fireAll]
      · intro hf
        rw [hcb2] at hf
        cases hf
      · intro hf
        rfl
    · refine ⟨[], ?_, ?_, ?_⟩
      · dsimp only [stateOf]
        simp
      · intro hf
        rw [hcb2] at hf
        cases hf
      · intro hf
        rfl

/-- Claim C7: resolving an operation whose success flag is false leaves
the success counter unchanged and produces no per-item callback event,
but still removes the operation from the in-flight list, and the
emptiness of the resulting in-flight list (with the registration flag) is
exactly the condition deciding whether the all-done callback fires at the
tail of this resolution. -/
theorem failed_download_resolution (env : Env) (s : BState) (d : Download)
    (hmem : d.id ∈ s.in_progress) (hfail : d.successful = false) :
    ∃ s', onDownloadFinished env s d = .ok s' ∧
      s'.done_count = s.done_count ∧
      s'.in_progress = s.in_progress.erase d.id ∧
      s'.trace = s.trace ++
        (if ((s.in_progress.erase d.id).isEmpty &&
            s.finished_registering_downloads) = true
          then [Event.all s.done_count (s.in_progress.erase d.id)
            s.finished_registering_downloads]
          else []) ∧
      s'.finished = (((s.in_progress.erase d.id).isEmpty &&
          s.finished_registering_downloads) || s.finished) := by
  unfold onDownloadFinished
  rw [if_pos hmem]
  dsimp only
  rw [if_neg (by rw [hfail]; simp)]
  split
  · rename_i hcond
    refine ⟨_, rfl, rfl, rfl, ?_, ?_⟩
    · dsimp only [fireAll]
    · dsimp only [fireAll]
      rw [hcond]
      simp
  · rename_i hcond
    have hcond2 : ((s.in_progress.erase d.id).isEmpty &&
        s.finished_registering_downloads) = false := by
      revert hcond
      cases (s.in_progress.erase d.id).isEmpty && s.finished_registering_downloads <;>
        simp
    refine ⟨_, rfl, rfl, rfl, ?_, ?_⟩
    · simp
    · dsimp only
      rw [hcond2]
      simp

/-- Claim C10: if the per-item callback raises while the last in-flight
operation is resolved after registration has completed, the exception
escapes the resolution as an uncaught error after the stream is closed,
the all-done callback is never invoked, the coordinator never reaches the
finished state, and no further backend event can change any of that. -/
theorem callback_raise_no_alldone (env : Env) (s : BState) (i fo : Nat)
    (hin : s.in_progress = [i]) (hpend : s.pending = [i])
    (hreg : s.finished_registering_downloads = true)
    (hraise : env.cbRaises fo = true)
    (hfin : s.finished = false) (hall : allCount s.trace = 0) :
    ∃ s', runActs env [Act.resolve i true (some fo)] s =
        .error (PyErr.userErr, s') ∧
      s'.finished = false ∧ s'.finished_registering_downloads = true ∧
      allCount s'.trace = 0 ∧
      s'.pending = [] ∧ s'.in_progress = [] ∧
      ∀ acts, runActs env acts s' = .ok s' := by
  have hodf : onDownloadFinished env { s with pending := s.pending.erase i }
      { id := i, successful := true, fileobj := some fo } =
      .error (PyErr.userErr,
        { s with
          pending := s.pending.erase i,
          in_progress := s.in_progress.erase i,
          done_count := s.done_count + 1,
          trace := s.trace ++ [Event.single fo, Event.closeFo fo] }) := by
    unfold onDownloadFinished
    rw [if_pos (show i ∈ ({ s with pending := s.pending.erase i } : BState).in_progress by
      dsimp only
      rw [hin]
      simp)]
    rw [if_pos rfl]
    dsimp only
    rw [if_pos hraise]
  have hstep : runActs env [Act.resolve i true (some fo)] s =
      .error (PyErr.userErr,
        { s with
          pending := s.pending.erase i,
          in_progress := s.in_progress.erase i,
          done_count := s.done_count + 1,
          trace := s.trace ++ [Event.single fo, Event.closeFo fo] }) := by
    unfold runActs
    rw [if_pos (by rw [hpend]; simp)]
    rw [hodf]
  rw [hstep]
  refine ⟨_, rfl, hfin, hreg, ?_, ?_, ?_, ?_⟩
  · dsimp only
    rw [allCount_append, hall, allCount_pair]
  · dsimp only
    rw [hpend]
    simp
  · dsimp only
    rw [hin]
    simp
  · intro acts
    refine runActs_pendingNil env acts _ ?_
    show s.pending.erase i = []
    rw [hpend]
    simp

/-! ### All-local-file runs (claims C4 and C9) -/

/-- Does `open` succeed on this path in this environment? -/
def openOk (env : Env) (p : String) : Bool :=
  match env.openFile p with
  | .ok _ => true
  | .error _ => false

theorem importLocal_openOkEq (env : Env) (f : String) (fo : Nat) (s : BState)
    (hopen : env.openFile f = .ok fo)
    (hnotmem : s.nextId ∉ s.in_progress)
    (hcb : env.cbRaises fo = false)
    (hflag : s.finished_registering_downloads = false) :
    importLocal env f s =
      .ok { s with
            importCalls := s.importCalls ++ [f],
            nextId := s.nextId + 1,
            dispatched := s.dispatched + 1,
            done_count := s.done_count + 1,
            trace := s.trace ++ [Event.single fo, Event.closeFo fo] } := by
  unfold importLocal
  dsimp only
  rw [hopen]
  dsimp only
  unfold onDownloadFinished
  rw [if_pos (by dsimp only; simp)]
  rw [if_pos rfl]
  dsimp only
  rw [if_neg (by rw [hcb]; simp)]
  rw [List.erase_append_right _ hnotmem]
  rw [if_neg (by rw [hflag]; simp)]
  simp

theorem importLocal_localRun (env : Env) (f : String) (s : BState)
    (hin : s.in_progress = [])
    (hflag : s.finished_registering_downloads = false)
    (hcb : ∀ fo, env.cbRaises fo = false) :
    ∃ s' ev, importLocal env f s = .ok s' ∧
      s'.in_progress = [] ∧ s'.pending = s.pending ∧
      s'.finished_registering_downloads = false ∧
      s'.finished = s.finished ∧ s'.urls = s.urls ∧ s'.started = s.started ∧
      s'.importCalls = s.importCalls ++ [f] ∧
      s'.done_count = s.done_count + (if openOk env f then 1 else 0) ∧
      s'.dispatched = s.dispatched + (if openOk env f then 1 else 0) ∧
      s'.trace = s.trace ++ ev ∧ allCount ev = 0 := by
  cases hopen : env.openFile f with
  | error e =>
      have hO : openOk env f = false := by
        unfold openOk
        rw [hopen]
      refine ⟨_, [Event.err ("blockutils: Error while reading " ++ f ++ ": " ++ e)],
        importLocal_openFail env f e s hopen,
        hin, rfl, hflag, rfl, rfl, rfl, rfl, ?_, ?_, rfl, rfl⟩
      · rw [hO]
        simp
      · rw [hO]
        simp
  | ok fo =>
      have hO : openOk env f = true := by
        unfold openOk
        rw [hopen]
      have hnotmem : s.nextId ∉ s.in_progress := by
        rw [hin]
        simp
      refine ⟨_, [Event.single fo, Event.closeFo fo],
        importLocal_openOkEq env f fo s hopen hnotmem (hcb fo) hflag,
        hin, rfl, hflag, rfl, rfl, rfl, rfl, ?_, ?_, rfl, rfl⟩
      · rw [hO]
        simp
      · rw [hO]
        simp

theorem importEntries_localRun (env : Env) (es : List DirEntry) (s : BState)
    (hin : s.in_progress = [])
    (hflag : s.finished_registering_downloads = false)
    (hcb : ∀ fo, env.cbRaises fo = false) :
    ∃ s' ev, importEntries env es s = .ok s' ∧
      s'.in_progress = [] ∧ s'.pending = s.pending ∧
      s'.finished_registering_downloads = false ∧
      s'.finished = s.finished ∧ s'.urls = s.urls ∧ s'.started = s.started ∧
      s'.importCalls = s.importCalls ++
        ((es.filter (fun e => e.is_file)).map (fun e => e.path)) ∧
      s'.done_count = s.done_count +
        ((es.filter (fun e => e.is_file)).filter (fun e => openOk env e.path)).length ∧
      s'.dispatched = s.dispatched +
        ((es.filter (fun e => e.is_file)).filter (fun e => openOk env e.path)).length ∧
      s'.trace = s.trace ++ ev ∧ allCount ev = 0 := by
  induction es generalizing s with
  | nil =>
      exact ⟨s, [], rfl, hin, rfl, hflag, rfl, rfl, rfl, by simp, by simp, by simp,
        by simp, rfl⟩
  | cons e es ih =>
      by_cases hf : e.is_file = true
      · obtain ⟨s1, ev1, heq1, p1, p2, p3, p4, p5, p6, p7, p8, p9, p10, p11⟩ :=
          importLocal_localRun env e.path s hin hflag hcb
        obtain ⟨s2, ev2, heq2, q1, q2, q3, q4, q5, q6, q7, q8, q9, q10, q11⟩ :=
          ih s1 p1 p3
        refine ⟨s2, ev1 ++ ev2, ?_, q1, q2.trans p2, q3, q4.trans p4, q5.trans p5,
          q6.trans p6, ?_, ?_, ?_, ?_, ?_⟩
        · unfold importEntries
          rw [if_pos hf, heq1]
          exact heq2
        · rw [q7, p7, List.filter_cons_of_pos hf]
          simp
        · rw [q8, p8, List.filter_cons_of_pos hf, List.filter_cons]
          cases hO : openOk env e.path <;> simp [hO] <;> omega
        · rw [q9, p9, List.filter_cons_of_pos hf, List.filter_cons]
          cases hO : openOk env e.path <;> simp [hO] <;> omega
        · rw [q10, p10, List.append_assoc]
        · rw [allCount_append, p11, q11]
      · obtain ⟨s2, ev2, heq2, q1, q2, q3, q4, q5, q6, q7, q8, q9, q10, q11⟩ :=
          ih s hin hflag
        have hf2 : e.is_file = false := by
          revert hf
          cases e.is_file <;> simp
        refine ⟨s2, ev2, ?_, q1, q2, q3, q4, q5, q6, ?_, ?_, ?_, q10, q11⟩
        · unfold importEntries
          rw [if_neg hf]
          exact heq2
        · rw [q7, List.filter_cons_of_neg (by simp [hf2])]
        · rw [q8, List.filter_cons_of_neg (by simp [hf2])]
        · rw [q9, List.filter_cons_of_neg (by simp [hf2])]

theorem loopUrls_localRun (env : Env) (us : List Url) (s : BState)
    (hin : s.in_progress = [])
    (hflag : s.finished_registering_downloads = false)
    (hcb : ∀ fo, env.cbRaises fo = false)
    (hloc : ∀ u ∈ us, ∃ p, u = Url.file p ∧ env.isDir p = false) :
    ∃ s' ev, loopUrls env us [] s = .ok s' ∧
      s'.in_progress = [] ∧ s'.pending = s.pending ∧
      s'.finished_registering_downloads = false ∧
      s'.urls = s.urls ∧
      s'.done_count = s.done_count + openableCount env us ∧
      s'.trace = s.trace ++ ev ∧ allCount ev = 0 := by
  induction us generalizing s with
  | nil =>
      exact ⟨s, [], rfl, hin, rfl, hflag, rfl, by simp [openableCount], by simp, rfl⟩
  | cons u us ih =>
      obtain ⟨p, rfl, hpd⟩ := hloc u (by simp)
      obtain ⟨s1, ev1, heq1, p1, p2, p3, p4, p5, p6, p7, p8, p9, p10, p11⟩ :=
        importLocal_localRun env p s hin hflag hcb
      obtain ⟨s2, ev2, heq2, q1, q2, q3, q4, q5, q6, q7⟩ :=
        ih s1 p1 p3 (fun v hv => hloc v (by simp [hv]))
      have hd : downloadBlocklistUrl env (Url.file p) s = importLocal env p s := by
        simp [downloadBlocklistUrl, hpd]
      have hoc : openableCount env (Url.file p :: us) =
          (if openOk env p = true then 1 else 0) + openableCount env us := by
        unfold openableCount
        rw [List.filter_cons]
        have hiso : isOpenableFile env (Url.file p) = openOk env p := rfl
        rw [hiso]
        cases openOk env p <;> simp [Nat.add_comm]
      refine ⟨s2, ev1 ++ ev2, ?_, q1, q2.trans p2, q3, q4.trans p5, ?_, ?_, ?_⟩
      · unfold loopUrls
        rw [hd, heq1]
        exact heq2
      · rw [q5, p8, hoc]
        omega
      · rw [q6, p10, List.append_assoc]
      · rw [allCount_append, p11, q7]

/-- Claim C4: for a source list consisting of one local directory, the
coordinator creates one local-file operation per direct file entry of the
directory — `_import_local` is invoked exactly on the paths of the
entries whose `is_file()` holds, in enumeration order — and subdirectory
entries are skipped, never descended into; with every file entry
openable, the number of dispatched operations equals the number K of
direct file entries. -/
theorem dir_source_operations (env : Env) (d : String)
    (hdir : env.isDir d = true)
    (hcb : ∀ fo, env.cbRaises fo = false)
    (hopen : ∀ e ∈ env.scandir d, e.is_file = true → openOk env e.path = true) :
    ∃ s, initiate env [] (mkCoordinator [Url.file d]) = .ok s ∧
      s.importCalls =
        ((env.scandir d).filter (fun e => e.is_file)).map (fun e => e.path) ∧
      s.dispatched = ((env.scandir d).filter (fun e => e.is_file)).length := by
  obtain ⟨s2, ev, heq, p1, p2, p3, p4, p5, p6, p7, p8, p9, p10, p11⟩ :=
    importEntries_localRun env (env.scandir d)
      { mkCoordinator [Url.file d] with started := true }
      (by simp [mkCoordinator]) (by simp [mkCoordinator]) hcb
  have hff : ((env.scandir d).filter (fun e => e.is_file)).filter
      (fun e => openOk env e.path) = (env.scandir d).filter (fun e => e.is_file) := by
    apply List.filter_eq_self.2
    intro e he
    have hm := List.mem_filter.1 he
    exact hopen e hm.1 (by simpa using hm.2)
  have hdl : downloadBlocklistUrl env (Url.file d)
      { mkCoordinator [Url.file d] with started := true } =
      importEntries env (env.scandir d)
        { mkCoordinator [Url.file d] with started := true } := by
    simp [downloadBlocklistUrl, hdir]
  have hloop : loopUrls env [Url.file d] []
      { mkCoordinator [Url.file d] with started := true } = .ok s2 := by
    unfold loopUrls
    rw [hdl, heq]
    rfl
  have h1 : initiate env [] (mkCoordinator [Url.file d]) =
      (match loopUrls env [Url.file d] []
          { mkCoordinator [Url.file d] with started := true } with
        | .error err => .error err
        | .ok s3 =>
            if ({ s3 with finished_registering_downloads := true } : BState).in_progress.isEmpty
            then .ok (fireAll { s3 with finished_registering_downloads := true })
            else .ok { s3 with finished_registering_downloads := true }) := rfl
  have hinit : initiate env [] (mkCoordinator [Url.file d]) =
      .ok (fireAll { s2 with finished_registering_downloads := true }) := by
    rw [h1, hloop]
    dsimp only
    rw [if_pos (by rw [p1]; rfl)]
  refine ⟨_, hinit, ?_, ?_⟩
  · dsimp only [fireAll]
    rw [p7]
    simp [mkCoordinator]
  · dsimp only [fireAll]
    rw [p9, hff]
    simp [mkCoordinator]

/-- Claim C9: for every non-empty source list of plain local files,
`initiate()` returns normally with the coordinator finished; the all-done
callback is invoked exactly once, as the very last observable event —
hence after every per-item callback invocation has returned — and
receives a success count equal to the number of files that could be
opened. -/
theorem all_local_files_run (env : Env) (urls : List Url)
    (hne : urls ≠ [])
    (hloc : ∀ u ∈ urls, ∃ p, u = Url.file p ∧ env.isDir p = false)
    (hcb : ∀ fo, env.cbRaises fo = false) :
    ∃ s t, initiate env [] (mkCoordinator urls) = .ok s ∧
      s.finished = true ∧
      s.trace = t ++ [Event.all (openableCount env urls) [] true] ∧
      allCount t = 0 := by
  obtain ⟨s2, ev, heq, p1, p2, p3, p4, p5, p6, p7⟩ :=
    loopUrls_localRun env urls { mkCoordinator urls with started := true }
      (by simp [mkCoordinator]) (by simp [mkCoordinator]) hcb hloc
  have hdone : s2.done_count = openableCount env urls := by
    rw [p5]
    simp [mkCoordinator]
  have htr : s2.trace = ev := by
    rw [p6]
    simp [mkCoordinator]
  have hloop2 : loopUrls env (mkCoordinator urls).urls []
      { mkCoordinator urls with started := true } = .ok s2 := heq
  have hinit : initiate env [] (mkCoordinator urls) =
      .ok (fireAll { s2 with finished_registering_downloads := true }) := by
    unfold initiate
    rw [if_neg (by simp [mkCoordinator])]
    dsimp only
    rw [if_neg (by simp [mkCoordinator, List.isEmpty_iff]; exact hne)]
    rw [hloop2]
    dsimp only
    rw [if_pos (by rw [p1]; rfl)]
  refine ⟨_, ev, hinit, rfl, ?_, p7⟩
  dsimp only [fireAll]
  rw [htr, hdone, p1]

/-! ### Concrete environments, counterexample and witnesses -/

/-- A concrete environment: no directories, every open fails,
the per-item callback never raises. -/
def envFail : Env :=
  { isDir := fun _ => false
    scandir := fun _ => []
    openFile := fun _ => .error "No such file or directory"
    cbRaises := fun _ => false }

/-- A concrete environment with one directory `"d"` holding two file
entries and one subdirectory entry; every open succeeds; the per-item
callback never raises. -/
def envDir : Env :=
  { isDir := fun p => p == "d"
    scandir := fun _ => [⟨true, "d/x"⟩, ⟨false, "d/sub"⟩, ⟨true, "d/y"⟩]
    openFile := fun p => .ok p.length
    cbRaises := fun _ => false }

/-- A concrete environment with no directories, where only `"a"` can be
opened; the per-item callback never raises. -/
def envFiles : Env :=
  { isDir := fun _ => false
    scandir := fun _ => []
    openFile := fun p => if p == "a" then .ok 1 else .error "Permission denied"
    cbRaises := fun _ => false }

/-- A concrete environment whose per-item callback always raises. -/
def envRaise : Env :=
  { isDir := fun _ => false
    scandir := fun _ => []
    openFile := fun _ => .ok 1
    cbRaises := fun _ => true }

/-- Claim C1, counterexample to the claim as stated: on the empty source
list the all-done callback is invoked at a point where the
registration-phase-complete flag is still false — the run's whole trace
is that single invocation, whose snapshot records the empty in-flight
list together with `regDone = false`. -/
theorem allDone_flag_counterexample :
    (stateOf (run envFail [] [] [])).trace = [Event.all 0 [] false] := rfl

/-- Witness for the amended claim C1: a run with one remote download that
resolves successfully after registration. -/
theorem allDone_fires_once_amended_witness :
    allCount [Event.single 5, Event.closeFo 5, Event.all 1 [] true] = 1 ∧
    ∀ c l r, Event.all c l r ∈
        [Event.single 5, Event.closeFo 5, Event.all 1 [] true] →
      l = [] ∧ (r = true ∨ ([Url.remote 0] : List Url) = []) :=
  allDone_fires_once_amended envFail [Url.remote 0] [] [Act.resolve 0 true (some 5)]
    _ rfl rfl

/-- Witness for claim C4: one directory with two file entries and one
subdirectory entry. -/
theorem dir_source_operations_witness :
    ∃ s, initiate envDir [] (mkCoordinator [Url.file "d"]) = .ok s ∧
      s.importCalls =
        ((envDir.scandir "d").filter (fun e => e.is_file)).map (fun e => e.path) ∧
      s.dispatched = ((envDir.scandir "d").filter (fun e => e.is_file)).length :=
  dir_source_operations envDir "d" rfl (fun _ => rfl) (by decide)

/-- Witness for claim C5: a fresh coordinator importing an unopenable
file. -/
theorem local_open_failure_skips_witness :
    ∃ s', importLocal envFail "nofile" (mkCoordinator []) = .ok s' ∧
      s'.trace = (mkCoordinator []).trace ++
        [Event.err ("blockutils: Error while reading " ++ "nofile" ++ ": " ++
          "No such file or directory")] ∧
      s'.in_progress = (mkCoordinator []).in_progress ∧
      s'.done_count = (mkCoordinator []).done_count ∧
      s'.pending = (mkCoordinator []).pending ∧
      s'.dispatched = (mkCoordinator []).dispatched ∧
      List.IsInfix "nofile".data
        ("blockutils: Error while reading " ++ "nofile" ++ ": " ++
          "No such file or directory").data ∧
      List.IsInfix "No such file or directory".data
        ("blockutils: Error while reading " ++ "nofile" ++ ": " ++
          "No such file or directory").data :=
  local_open_failure_skips envFail "nofile" "No such file or directory"
    (mkCoordinator []) rfl

/-- A one-download-in-flight state for the resolution witnesses. -/
def oneInFlight : BState := { mkCoordinator [] with in_progress := [0] }

/-- Witness for claim C6: resolving the one in-flight successful download
with a non-raising callback. -/
theorem stream_closed_all_paths_witness :
    ∃ t, (stateOf (onDownloadFinished envFail oneInFlight
        { id := 0, successful := true, fileobj := some 1 })).trace =
      oneInFlight.trace ++ [Event.single 1, Event.closeFo 1] ++ t ∧
      (envFail.cbRaises 1 = true →
        onDownloadFinished envFail oneInFlight
            { id := 0, successful := true, fileobj := some 1 } =
          .error (PyErr.userErr, stateOf (onDownloadFinished envFail oneInFlight
            { id := 0, successful := true, fileobj := some 1 })) ∧ t = []) ∧
      (envFail.cbRaises 1 = false →
        onDownloadFinished envFail oneInFlight
            { id := 0, successful := true, fileobj := some 1 } =
          .ok (stateOf (onDownloadFinished envFail oneInFlight
            { id := 0, successful := true, fileobj := some 1 }))) :=
  stream_closed_all_paths envFail oneInFlight
    { id := 0, successful := true, fileobj := some 1 } 1 (by decide) rfl rfl

/-- Witness for claim C7: resolving the one in-flight download with its
success flag false. -/
theorem failed_download_resolution_witness :
    ∃ s', onDownloadFinished envFail oneInFlight
        { id := 0, successful := false, fileobj := none } = .ok s' ∧
      s'.done_count = oneInFlight.done_count ∧
      s'.in_progress = oneInFlight.in_progress.erase 0 ∧
      s'.trace = oneInFlight.trace ++
        (if ((oneInFlight.in_progress.erase 0).isEmpty &&
            oneInFlight.finished_registering_downloads) = true
          then [Event.all oneInFlight.done_count (oneInFlight.in_progress.erase 0)
            oneInFlight.finished_registering_downloads]
          else []) ∧
      s'.finished = (((oneInFlight.in_progress.erase 0).isEmpty &&
          oneInFlight.finished_registering_downloads) || oneInFlight.finished) :=
  failed_download_resolution envFail oneInFlight
    { id := 0, successful := false, fileobj := none } (by decide) rfl

/-- Witness for claim C9: two local files, one openable and one not. -/
theorem all_local_files_run_witness :
    ∃ s t, initiate envFiles [] (mkCoordinator [Url.file "a", Url.file "b"]) =
        .ok s ∧
      s.finished = true ∧
      s.trace = t ++
        [Event.all (openableCount envFiles [Url.file "a", Url.file "b"]) [] true] ∧
      allCount t = 0 :=
  all_local_files_run envFiles [Url.file "a", Url.file "b"] (by simp)
    (by
      intro u hu
      simp at hu
      rcases hu with rfl | rfl
      · exact ⟨"a", rfl, rfl⟩
      · exact ⟨"b", rfl, rfl⟩)
    (fun _ => rfl)

/-- A state with one in-flight pending download after registration, for
the claim C10 witness. -/
def lastInFlight : BState :=
  { mkCoordinator [] with
    in_progress := [0],
    pending := [0],
    finished_registering_downloads := true,
    dispatched := 1,
    nextId := 1 }

/-- Witness for claim C10: the last in-flight download resolves and the
per-item callback raises. -/
theorem callback_raise_no_alldone_witness :
    ∃ s', runActs envRaise [Act.resolve 0 true (some 1)] lastInFlight =
        .error (PyErr.userErr, s') ∧
      s'.finished = false ∧ s'.finished_registering_downloads = true ∧
      allCount s'.trace = 0 ∧
      s'.pending = [] ∧ s'.in_progress = [] ∧
      ∀ acts, runActs envRaise acts s' = .ok s' :=
  callback_raise_no_alldone envRaise lastInFlight 0 1 rfl rfl rfl rfl rfl rfl
